import Mathlib

/-!
Verification of the Habits-App analytics and reminder engine.

Dates are modelled at day granularity as integers (day numbers): the
source normalises every stored timestamp to local midnight / a
YYYY-MM-DD key before comparing, so one `Int` per calendar day is the
faithful abstraction.  Wall-clock inputs (`new Date()`, `format(new
Date(), "HH:mm")`, `startOfToday()`) become explicit parameters.
-/

set_option maxHeartbeats 1000000

namespace HabitsApp

/-- A habit completion record at day granularity: calendar date as a day
number plus the optional duration in minutes (`HabitCompletion` in
`src/types`). -/
structure HabitCompletion where
  date : Int
  duration : Option Nat
deriving DecidableEq

/-- A habit skip record at day granularity. -/
structure HabitSkip where
  date : Int
deriving DecidableEq

/-- The set of completion dates, deduplicated — the source builds
`new Set(completions.map(c => dayKey(c.date)))`. -/
def completionDates (completions : List HabitCompletion) : Finset Int :=
  (completions.map (fun c => c.date)).toFinset

/-- The set of skip dates, deduplicated — `new Set(skips.map(...))`. -/
def skipDates (skips : List HabitSkip) : Finset Int :=
  (skips.map (fun s => s.date)).toFinset

/-- The `while (true)` walk of `calculateStreak`
(`analytics.service.ts`): at day `d`, a skip stops the walk with 0 more
days, a completion counts 1 and moves to the previous day, anything else
stops.  The source loop is unbounded; `fuel` is a termination device, and
`streakLoop_eq_min` below shows any fuel above the number of distinct
completion dates reproduces the unbounded loop exactly. -/
def streakLoop (comp sk : Finset Int) : Nat → Int → Nat
  | 0, _ => 0
  | fuel + 1, d =>
    if d ∈ sk then 0
    else if d ∈ comp then streakLoop comp sk fuel (d - 1) + 1
    else 0

/-- Walking backward from `d`, some offset `k` fails the
completion-and-no-skip test: the dates `d, d-1, …` are pairwise distinct,
so they cannot all lie in the finite set `comp`. -/
lemma walk_stop_exists (comp sk : Finset Int) (d : Int) :
    ∃ k : Nat, ¬((d - (k : Int)) ∈ comp ∧ (d - (k : Int)) ∉ sk) := by
  by_contra h
  push_neg at h
  have hmem : ∀ k : Nat, (d - (k : Int)) ∈ comp := fun k => (h k).1
  have hinj : Function.Injective (fun k : Nat => d - (k : Int)) := by
    intro a b hab
    simp only [sub_right_inj, Int.natCast_inj] at hab
    exact hab
  have hsub : (Finset.range (comp.card + 1)).image (fun k : Nat => d - (k : Int)) ⊆ comp := by
    intro x hx
    rcases Finset.mem_image.mp hx with ⟨k, _, rfl⟩
    exact hmem k
  have hcard := Finset.card_le_card hsub
  rw [Finset.card_image_of_injective _ hinj, Finset.card_range] at hcard
  omega

/-- Modelled from the spec: the current streak is the length of the
maximal run of days `d, d-1, …` each carrying a completion and no skip —
"walk backward day-by-day from today; a completion increments and
continues, a skip stops, a gap stops". -/
def specCurrentStreak (comp sk : Finset Int) (d : Int) : Nat :=
  Nat.find (walk_stop_exists comp sk d)

lemma specCurrentStreak_mem (comp sk : Finset Int) (d : Int) :
    ∀ j : Nat, j < specCurrentStreak comp sk d →
      (d - (j : Int)) ∈ comp ∧ (d - (j : Int)) ∉ sk := by
  intro j hj
  have := Nat.find_min (walk_stop_exists comp sk d) hj
  exact not_not.mp this

lemma specCurrentStreak_stop (comp sk : Finset Int) (d : Int) :
    ¬((d - (specCurrentStreak comp sk d : Int)) ∈ comp ∧
      (d - (specCurrentStreak comp sk d : Int)) ∉ sk) :=
  Nat.find_spec (walk_stop_exists comp sk d)

/-- The spec walk satisfies the one-step recurrence: a skipped day gives
0, a completed (unskipped) day gives one more than the walk from the
previous day, any other day gives 0. -/
lemma specCurrentStreak_rec (comp sk : Finset Int) (d : Int) :
    specCurrentStreak comp sk d =
      if d ∈ sk then 0
      else if d ∈ comp then specCurrentStreak comp sk (d - 1) + 1
      else 0 := by
  by_cases h1 : d ∈ sk
  · rw [if_pos h1]
    rw [specCurrentStreak, Nat.find_eq_zero]
    intro hc
    exact hc.2 (by simpa using h1)
  · rw [if_neg h1]
    by_cases h2 : d ∈ comp
    · rw [if_pos h2]
      rw [specCurrentStreak, Nat.find_eq_iff]
      constructor
      · intro hc
        have := specCurrentStreak_stop comp sk (d - 1)
        apply this
        have harith : d - ((specCurrentStreak comp sk (d - 1) + 1 : Nat) : Int)
            = d - 1 - (specCurrentStreak comp sk (d - 1) : Int) := by
          push_cast
          ring
        rw [harith] at hc
        exact hc
      · intro m hm
        rw [not_not]
        match m with
        | 0 => simpa using ⟨h2, h1⟩
        | j + 1 =>
          have hj : j < specCurrentStreak comp sk (d - 1) := by omega
          have := specCurrentStreak_mem comp sk (d - 1) j hj
          have harith : d - ((j + 1 : Nat) : Int) = d - 1 - (j : Int) := by
            push_cast
            ring
          rw [harith]
          exact this
    · rw [if_neg h2]
      rw [specCurrentStreak, Nat.find_eq_zero]
      intro hc
      exact h2 (by simpa using hc.1)

/-- The fueled loop computes the minimum of the fuel and the ideal
(unbounded) walk length: fuel only ever truncates, never changes, the
answer. -/
lemma streakLoop_eq_min (comp sk : Finset Int) :
    ∀ (fuel : Nat) (d : Int),
      streakLoop comp sk fuel d = min fuel (specCurrentStreak comp sk d) := by
  intro fuel
  induction fuel with
  | zero => intro d; simp [streakLoop]
  | succ f ih =>
    intro d
    rw [streakLoop, specCurrentStreak_rec]
    by_cases h1 : d ∈ sk
    · simp [h1]
    · by_cases h2 : d ∈ comp
      · rw [if_neg h1, if_pos h2, if_neg h1, if_pos h2, ih (d - 1)]
        omega
      · simp [h1, h2]

/-- The ideal walk never exceeds the number of distinct completion
dates: each counted day is a distinct member of `comp`. -/
lemma specCurrentStreak_le_card (comp sk : Finset Int) (d : Int) :
    specCurrentStreak comp sk d ≤ comp.card := by
  have hinj : Function.Injective (fun k : Nat => d - (k : Int)) := by
    intro a b hab
    simp only [sub_right_inj, Int.natCast_inj] at hab
    exact hab
  have hsub : (Finset.range (specCurrentStreak comp sk d)).image
      (fun k : Nat => d - (k : Int)) ⊆ comp := by
    intro x hx
    rcases Finset.mem_image.mp hx with ⟨k, hk, rfl⟩
    exact (specCurrentStreak_mem comp sk d k (Finset.mem_range.mp hk)).1
  have hcard := Finset.card_le_card hsub
  rwa [Finset.card_image_of_injective _ hinj, Finset.card_range] at hcard

/-- Function `calculateStreak` from `analytics.service.ts`: early return 0 on an
empty completion list, otherwise run the backward walk from `today`.
The source loop is unbounded; the fuel `card + 1` is sufficient by
`specCurrentStreak_le_card` and `streakLoop_eq_min`. -/
def calculateStreak (completions : List HabitCompletion) (skips : List HabitSkip)
    (today : Int) : Nat :=
  if completions.length = 0 then 0
  else
    streakLoop (completionDates completions) (skipDates skips)
      ((completionDates completions).card + 1) today

/-- The embedded `calculateStreak` agrees with the ideal unbounded walk. -/
lemma calculateStreak_eq_spec (completions : List HabitCompletion)
    (skips : List HabitSkip) (today : Int) :
    calculateStreak completions skips today =
      specCurrentStreak (completionDates completions) (skipDates skips) today := by
  unfold calculateStreak
  by_cases h : completions.length = 0
  · rw [if_pos h]
    have hnil : completions = [] := List.length_eq_zero.mp h
    subst hnil
    have : completionDates [] = (∅ : Finset Int) := by
      simp [completionDates]
    rw [this]
    symm
    rw [specCurrentStreak, Nat.find_eq_zero]
    intro hc
    simpa using hc.1
  · rw [if_neg h, streakLoop_eq_min]
    have := specCurrentStreak_le_card (completionDates completions)
      (skipDates skips) today
    omega

/-- Going forward from `d`, some offset falls outside the finite set `S`. -/
lemma run_stop_exists (S : Finset Int) (d : Int) :
    ∃ k : Nat, (d + (k : Int)) ∉ S := by
  by_contra h
  push_neg at h
  have hinj : Function.Injective (fun k : Nat => d + (k : Int)) := by
    intro a b hab
    simp only [add_right_inj, Int.natCast_inj] at hab
    exact hab
  have hsub : (Finset.range (S.card + 1)).image (fun k : Nat => d + (k : Int)) ⊆ S := by
    intro x hx
    rcases Finset.mem_image.mp hx with ⟨k, _, rfl⟩
    exact h k
  have hcard := Finset.card_le_card hsub
  rw [Finset.card_image_of_injective _ hinj, Finset.card_range] at hcard
  omega

/-- Modelled from the spec: the length of the run of calendar-consecutive
dates in `S` starting at `d` (day-to-day delta of exactly 1). -/
def runLen (S : Finset Int) (d : Int) : Nat :=
  Nat.find (run_stop_exists S d)

/-- Modelled from the spec: the longest run of calendar-consecutive
distinct completion dates — the maximum, over all starting dates in the
set, of the consecutive-run length from that date. -/
def specLongestStreak (S : Finset Int) : Nat :=
  S.sup (fun d => runLen S d)

lemma runLen_eq_iff {S : Finset Int} {d : Int} {n : Nat} :
    runLen S d = n ↔ (d + (n : Int)) ∉ S ∧ ∀ j : Nat, j < n → (d + (j : Int)) ∈ S := by
  unfold runLen
  rw [Nat.find_eq_iff]
  constructor
  · rintro ⟨h1, h2⟩
    exact ⟨h1, fun j hj => not_not.mp (h2 j hj)⟩
  · rintro ⟨h1, h2⟩
    exact ⟨h1, fun j hj => not_not.mpr (h2 j hj)⟩

lemma runLen_congr {S T : Finset Int} (d : Int)
    (h : ∀ j : Nat, (d + (j : Int)) ∈ S ↔ (d + (j : Int)) ∈ T) :
    runLen S d = runLen T d := by
  rw [runLen_eq_iff]
  refine ⟨?_, ?_⟩
  · rw [h (runLen T d)]
    exact Nat.find_spec (run_stop_exists T d)
  · intro j hj
    rw [h j]
    exact not_not.mp (Nat.find_min (run_stop_exists T d) hj)

/-- Splitting the longest-run computation at a gap: if every element of
`B` lies strictly beyond `b + 1`, the interval `[a, b]` and `B` cannot
join into one run, so the longest run over the union is the larger of
the interval length and the longest run inside `B`. -/
lemma specLongestStreak_union_gap (a b : Int) (hab : a ≤ b) (B : Finset Int)
    (hB : ∀ x ∈ B, b + 1 < x) :
    specLongestStreak (Finset.Icc a b ∪ B) =
      max (b - a + 1).toNat (specLongestStreak B) := by
  have hIcc : ∀ d ∈ Finset.Icc a b, runLen (Finset.Icc a b ∪ B) d = (b - d + 1).toNat := by
    intro d hd
    rcases Finset.mem_Icc.mp hd with ⟨hd1, hd2⟩
    rw [runLen_eq_iff]
    constructor
    · have hcast : ((b - d + 1).toNat : Int) = b - d + 1 := by omega
      rw [hcast]
      have hval : d + (b - d + 1) = b + 1 := by ring
      rw [hval, Finset.mem_union]
      rintro (hmem | hmem)
      · rcases Finset.mem_Icc.mp hmem with ⟨_, h2⟩
        omega
      · exact absurd (hB _ hmem) (by omega)
    · intro j hj
      apply Finset.mem_union_left
      rw [Finset.mem_Icc]
      omega
  have hBpt : ∀ d ∈ B, runLen (Finset.Icc a b ∪ B) d = runLen B d := by
    intro d hd
    apply runLen_congr
    intro j
    rw [Finset.mem_union]
    constructor
    · rintro (hmem | hmem)
      · rcases Finset.mem_Icc.mp hmem with ⟨_, h2⟩
        have := hB d hd
        have hge : (0 : Int) ≤ (j : Int) := Int.natCast_nonneg j
        omega
      · exact hmem
    · intro hmem
      exact Or.inr hmem
  have h1 : (Finset.Icc a b).sup (fun d => runLen (Finset.Icc a b ∪ B) d)
      = (b - a + 1).toNat := by
    rw [Finset.sup_congr rfl hIcc]
    apply le_antisymm
    · apply Finset.sup_le
      intro d hd
      rcases Finset.mem_Icc.mp hd with ⟨hd1, _⟩
      omega
    · have ha : a ∈ Finset.Icc a b := Finset.mem_Icc.mpr ⟨le_refl a, hab⟩
      exact @Finset.le_sup Nat Int _ _ (Finset.Icc a b)
        (fun d => (b - d + 1).toNat) a ha
  have h2 : B.sup (fun d => runLen (Finset.Icc a b ∪ B) d)
      = B.sup (fun d => runLen B d) :=
    Finset.sup_congr rfl hBpt
  unfold specLongestStreak
  rw [Finset.sup_union, h1, h2]

/-- The inner run accumulation of the `calculateLongestStreak` loop once
a run of length `cur` ending at date `l` is in progress: a delta-1 next
date extends the run, any other delta closes it (recording its length)
and starts a fresh run of length 1. -/
def runMax : Int → Nat → List Int → Nat
  | _, cur, [] => cur
  | l, cur, d :: rest =>
    if d - l = 1 then runMax d (cur + 1) rest
    else max cur (runMax d 1 rest)

/-- The `for (const date of sortedDates)` loop of
`calculateLongestStreak` (`analytics.service.ts`), with its
`longestStreak`, `currentStreak` and `lastDate` state and the final
`max(longestStreak, currentStreak)`. -/
def longestLoop : List Int → Nat → Nat → Option Int → Nat
  | [], longest, cur, _ => max longest cur
  | d :: rest, longest, cur, lastDate =>
    match lastDate with
    | none => longestLoop rest longest 1 (some d)
    | some l =>
      if d - l = 1 then longestLoop rest longest (cur + 1) (some d)
      else longestLoop rest (max longest cur) 1 (some d)

lemma longestLoop_eq_max : ∀ (xs : List Int) (longest cur : Nat) (l : Int),
    longestLoop xs longest cur (some l) = max longest (runMax l cur xs) := by
  intro xs
  induction xs with
  | nil => intro longest cur l; simp [longestLoop, runMax]
  | cons d rest ih =>
    intro longest cur l
    simp only [longestLoop, runMax]
    by_cases hd : d - l = 1
    · rw [if_pos hd, if_pos hd, ih]
    · rw [if_neg hd, if_neg hd, ih, max_assoc]

lemma runMax_eq_spec : ∀ (xs : List Int) (l : Int) (cur : Nat), 1 ≤ cur →
    xs.Sorted (· < ·) → (∀ x ∈ xs, l < x) →
    runMax l cur xs =
      specLongestStreak (Finset.Icc (l - (cur : Int) + 1) l ∪ xs.toFinset) := by
  intro xs
  induction xs with
  | nil =>
    intro l cur hcur _ _
    have hsplit := specLongestStreak_union_gap (l - (cur : Int) + 1) l
      (by omega) (∅ : Finset Int) (by intro x hx; simp at hx)
    simp only [List.toFinset_nil]
    rw [hsplit]
    have : (l - (l - (cur : Int) + 1) + 1).toNat = cur := by omega
    rw [this]
    simp [specLongestStreak, runMax]
  | cons d rest ih =>
    intro l cur hcur hsorted hgt
    rcases List.sorted_cons.mp hsorted with ⟨hdlt, hsorted'⟩
    have hld : l < d := hgt d (List.mem_cons_self d rest)
    simp only [runMax, List.toFinset_cons]
    by_cases hd : d - l = 1
    · rw [if_pos hd]
      rw [ih d (cur + 1) (by omega) hsorted' hdlt]
      congr 1
      ext x
      simp only [Finset.mem_union, Finset.mem_Icc, Finset.mem_insert]
      by_cases hr : x ∈ rest.toFinset
      · simp [hr]
      · simp only [hr, or_false]
        omega
    · rw [if_neg hd]
      have hgap : ∀ x ∈ insert d rest.toFinset, l + 1 < x := by
        intro x hx
        rcases Finset.mem_insert.mp hx with hx | hx
        · omega
        · have := hdlt x (List.mem_toFinset.mp hx)
          omega
      have hsplit := specLongestStreak_union_gap (l - (cur : Int) + 1) l
        (by omega) (insert d rest.toFinset) hgap
      rw [hsplit]
      have hlen : (l - (l - (cur : Int) + 1) + 1).toNat = cur := by omega
      rw [hlen]
      congr 1
      rw [ih d 1 le_rfl hsorted' hdlt]
      congr 1
      ext x
      simp only [Finset.mem_union, Finset.mem_Icc, Finset.mem_insert]
      by_cases hr : x ∈ rest.toFinset
      · simp [hr]
      · simp only [hr, or_false]
        omega

/-- The sorted deduplicated completion dates —
`Array.from(completionDates).sort((a, b) => a - b)`. -/
def sortedCompletionDates (completions : List HabitCompletion) : List Int :=
  (completionDates completions).sort (· ≤ ·)

/-- Function `calculateLongestStreak` from `analytics.service.ts`: early return 0
on an empty completion list, otherwise run the fold over the sorted
deduplicated completion dates.  The skip-date set the source builds
(`skipDates`) is bound but never consulted by the loop, exactly as in
the source. -/
def calculateLongestStreak (completions : List HabitCompletion)
    (skips : List HabitSkip) : Nat :=
  if completions.length = 0 then 0
  else
    let _sk := skipDates skips
    longestLoop (sortedCompletionDates completions) 0 0 none

/-- The embedded `calculateLongestStreak` computes the length of the
longest run of calendar-consecutive distinct completion dates. -/
lemma calculateLongestStreak_eq_spec (completions : List HabitCompletion)
    (skips : List HabitSkip) :
    calculateLongestStreak completions skips =
      specLongestStreak (completionDates completions) := by
  unfold calculateLongestStreak
  by_cases h : completions.length = 0
  · rw [if_pos h]
    have hnil : completions = [] := List.length_eq_zero.mp h
    subst hnil
    have : completionDates [] = (∅ : Finset Int) := by simp [completionDates]
    rw [this]
    simp [specLongestStreak]
  · rw [if_neg h]
    have hLt : (sortedCompletionDates completions).toFinset
        = completionDates completions :=
      Finset.sort_toFinset _ _
    have hsorted : (sortedCompletionDates completions).Sorted (· < ·) :=
      Finset.sort_sorted_lt _
    rcases hL : sortedCompletionDates completions with _ | ⟨d, r⟩
    · exfalso
      rw [hL] at hLt
      simp only [List.toFinset_nil] at hLt
      rcases completions with _ | ⟨c, cs⟩
      · simp at h
      · have : c.date ∈ completionDates (c :: cs) := by
          simp [completionDates]
        rw [← hLt] at this
        simp at this
    · rw [hL] at hsorted
      rcases List.sorted_cons.mp hsorted with ⟨hdlt, hsorted'⟩
      simp only [longestLoop]
      rw [longestLoop_eq_max, runMax_eq_spec r d 1 le_rfl hsorted' hdlt]
      have hset : Finset.Icc (d - ((1 : Nat) : Int) + 1) d ∪ r.toFinset
          = completionDates completions := by
        rw [← hLt, hL]
        simp only [List.toFinset_cons]
        ext x
        simp only [Finset.mem_union, Finset.mem_Icc, Finset.mem_insert]
        by_cases hr : x ∈ r.toFinset
        · simp [hr]
        · simp only [hr, or_false]
          omega
      rw [hset]
      simp

/-- JS `Math.round(x * 100) / 100` — round to 2 decimal places.  Numeric
values are modelled exactly in ℚ; `Mathlib.round` is `⌊x + 1/2⌋`, the
same half-up rule as `Math.round`. -/
def round2 (q : ℚ) : ℚ := ((round (q * 100) : Int) : ℚ) / 100

/-- The statistics object assembled by `getHabitStatistics`
(`analytics.service.ts`). -/
structure HabitStatistics where
  totalCompletions : Nat
  totalSkips : Nat
  totalTime : Nat
  completionRate : ℚ
  currentStreak : Nat
  longestStreak : Nat

/-- The pure computation of `getHabitStatistics` (`analytics.service.ts`)
once the habit's completions and skips have been fetched: counts, total
time, the guarded completion rate (`totalAttempts > 0 ? ... : 0`) rounded
to 2 decimal places, and both streaks. -/
def getHabitStatistics (completions : List HabitCompletion)
    (skips : List HabitSkip) (today : Int) : HabitStatistics :=
  let totalCompletions := completions.length
  let totalSkips := skips.length
  let totalTime := completions.foldl (fun sum c => sum + c.duration.getD 0) 0
  let totalAttempts := totalCompletions + totalSkips
  let completionRate : ℚ :=
    if 0 < totalAttempts then ((totalCompletions : ℚ) / (totalAttempts : ℚ)) * 100
    else 0
  { totalCompletions := totalCompletions
    totalSkips := totalSkips
    totalTime := totalTime
    completionRate := round2 completionRate
    currentStreak := calculateStreak completions skips today
    longestStreak := calculateLongestStreak completions skips }

/-- Modelled from the spec: `completionRate` is
`totalCompletions / (totalCompletions + totalSkips) * 100` rounded to 2
decimal places, and 0 when the denominator is 0. -/
def specCompletionRate (c s : Nat) : ℚ :=
  if c + s = 0 then 0
  else round2 (((c : ℚ) / ((c : ℚ) + (s : ℚ))) * 100)

/-- The habit structure as used by the reminder engine: identity, owner,
display name and the optional reminder time-of-day string. -/
structure Habit where
  id : String
  userId : String
  name : String
  reminderTime : Option String
deriving DecidableEq

/-- The p256dh/auth key pair of a push subscription. -/
structure SubscriptionKeys where
  p256dh : String
  auth : String
deriving DecidableEq

/-- A row of the `notificationSubscription` table: owner, optional habit
target (null means the subscription is not tied to one habit), the
globally unique endpoint, and the delivery keys. -/
structure NotificationSubscription where
  id : Nat
  userId : String
  habitId : Option String
  endpoint : String
  keys : SubscriptionKeys
deriving DecidableEq

/-- The JSON payload of `sendHabitReminder`:
`{title: "Habit Reminder", body: message, habitId}`. -/
structure PushPayload where
  title : String
  body : String
  habitId : String
deriving DecidableEq

/-- One `webpush.sendNotification(pushSubscription, payload)` call:
endpoint, keys and payload handed to the notify collaborator. -/
structure NotificationAttempt where
  endpoint : String
  keys : SubscriptionKeys
  payload : PushPayload
deriving DecidableEq

/-- Outcome of one notify call: success, a 410 Gone error (endpoint
permanently invalid), or any other delivery error. -/
inductive NotifyResult
  | ok
  | gone
  | failed
deriving DecidableEq

/-- The `for (const subscription of subscriptions)` loop of
`sendHabitReminder` (`push-notification.service.ts`): every subscription
is attempted; a 410 response deletes that subscription row from the
registry; any other error is logged and the loop continues. -/
def sendLoop (notify : String → NotifyResult) (payload : PushPayload) :
    List NotificationSubscription → List NotificationSubscription →
    List NotificationAttempt × List NotificationSubscription
  | [], registry => ([], registry)
  | sub :: rest, registry =>
    let registryAfter :=
      match notify sub.endpoint with
      | NotifyResult.gone => registry.filter (fun s => s.id ≠ sub.id)
      | _ => registry
    let result := sendLoop notify payload rest registryAfter
    (⟨sub.endpoint, sub.keys, payload⟩ :: result.1, result.2)

/-- Function `sendHabitReminder(habitId, message)`
(`push-notification.service.ts`): fetch the subscriptions whose
`habitId` equals this habit, return early when there are none, otherwise
build the payload and loop.  Returns the notify attempts made and the
registry after pruning. -/
def sendHabitReminder (notify : String → NotifyResult)
    (habitId message : String) (registry : List NotificationSubscription) :
    List NotificationAttempt × List NotificationSubscription :=
  let subs := registry.filter (fun s => s.habitId = some habitId)
  if subs.length = 0 then ([], registry)
  else sendLoop notify ⟨"Habit Reminder", message, habitId⟩ subs registry

/-- Modelled from the spec: `dispatch(habit, message)` resolves every
subscription whose habit reference is this habit OR is null with an
owner matching the habit's owner. -/
def specDispatchTargets (habitId ownerId : String)
    (registry : List NotificationSubscription) :
    List NotificationSubscription :=
  registry.filter
    (fun s => s.habitId = some habitId ∨ (s.habitId = none ∧ s.userId = ownerId))

lemma sendLoop_attempts (notify : String → NotifyResult) (payload : PushPayload) :
    ∀ (subs registry : List NotificationSubscription),
      (sendLoop notify payload subs registry).1
        = subs.map (fun s => ⟨s.endpoint, s.keys, payload⟩) := by
  intro subs
  induction subs with
  | nil => intro registry; simp [sendLoop]
  | cons sub rest ih =>
    intro registry
    simp [sendLoop, ih]

/-- The ids deleted by the loop: those of the processed subscriptions
whose notify call came back 410 Gone. -/
def goneIds (notify : String → NotifyResult)
    (subs : List NotificationSubscription) : List Nat :=
  (subs.filter (fun s => notify s.endpoint = NotifyResult.gone)).map
    (fun s => s.id)

lemma sendLoop_registry (notify : String → NotifyResult) (payload : PushPayload) :
    ∀ (subs registry : List NotificationSubscription),
      (sendLoop notify payload subs registry).2
        = registry.filter (fun s => s.id ∉ goneIds notify subs) := by
  intro subs
  induction subs with
  | nil =>
    intro registry
    simp [sendLoop, goneIds]
  | cons sub rest ih =>
    intro registry
    rcases hn : notify sub.endpoint with _ | _ | _
    · simp only [sendLoop, hn, ih]
      apply List.filter_congr
      intro s _
      simp [goneIds, hn]
    · simp only [sendLoop, hn, ih, List.filter_filter]
      apply List.filter_congr
      intro s _
      simp only [goneIds, List.filter_cons, hn]
      simp [List.mem_cons, not_or, goneIds, Bool.and_comm]
    · simp only [sendLoop, hn, ih]
      apply List.filter_congr
      intro s _
      simp [goneIds, hn]

/-- A row of the `habitCompletion` table: habit reference, calendar
date (day granularity), optional duration and note. -/
structure CompletionRecord where
  habitId : String
  date : Int
  duration : Option Nat
  notes : Option String
deriving DecidableEq

/-- The reminder message built by `checkAndSendReminders`. -/
def reminderMessage (name : String) : String :=
  "Don\x27t forget to complete \"" ++ name ++ "\"!"

/-- The `for (const habit of habits)` loop of `checkAndSendReminders`:
for each matched habit, if it has no completion dated today, dispatch
its reminder; the registry evolves as expired subscriptions are
pruned. -/
def remindLoop (notify : String → NotifyResult) (today : Int)
    (completions : List CompletionRecord) :
    List Habit → List NotificationSubscription →
    List NotificationAttempt × List NotificationSubscription
  | [], registry => ([], registry)
  | h :: rest, registry =>
    let todays := completions.filter (fun c => c.habitId = h.id ∧ c.date = today)
    let step :=
      if todays.length = 0 then
        sendHabitReminder notify h.id (reminderMessage h.name) registry
      else ([], registry)
    let result := remindLoop notify today completions rest step.2
    (step.1 ++ result.1, result.2)

/-- Function `checkAndSendReminders` (`push-notification.service.ts`): select the
habits whose `reminderTime` equals the current HH:mm wall-clock string
and that have at least one subscription, then loop over them dispatching
reminders for those with no completion dated today.  `currentTime` and
`today` are the wall-clock inputs (`format(new Date(), "HH:mm")` and
`startOfToday()`) made explicit. -/
def checkAndSendReminders (notify : String → NotifyResult)
    (currentTime : String) (today : Int) (habits : List Habit)
    (completions : List CompletionRecord)
    (registry : List NotificationSubscription) :
    List NotificationAttempt × List NotificationSubscription :=
  let due := habits.filter
    (fun h => h.reminderTime = some currentTime ∧
      registry.any (fun s => s.habitId = some h.id))
  remindLoop notify today completions due registry

/-- The notify attempt constructed for subscription `s` of habit
`habitId` with message `message`. -/
def toAttempt (habitId message : String) (s : NotificationSubscription) :
    NotificationAttempt :=
  ⟨s.endpoint, s.keys, ⟨"Habit Reminder", message, habitId⟩⟩

lemma sendHabitReminder_attempts (notify : String → NotifyResult)
    (habitId message : String) (registry : List NotificationSubscription) :
    (sendHabitReminder notify habitId message registry).1
      = (registry.filter (fun s => s.habitId = some habitId)).map
          (toAttempt habitId message) := by
  unfold sendHabitReminder
  by_cases h : (registry.filter (fun s => s.habitId = some habitId)).length = 0
  · rw [if_pos h]
    rw [List.length_eq_zero] at h
    rw [h]
    simp
  · rw [if_neg h, sendLoop_attempts]
    rfl

lemma sendHabitReminder_registry (notify : String → NotifyResult)
    (habitId message : String) (registry : List NotificationSubscription) :
    (sendHabitReminder notify habitId message registry).2
      = registry.filter (fun s =>
          s.id ∉ goneIds notify
            (registry.filter (fun t => t.habitId = some habitId))) := by
  unfold sendHabitReminder
  by_cases h : (registry.filter (fun s => s.habitId = some habitId)).length = 0
  · rw [if_pos h]
    rw [List.length_eq_zero] at h
    rw [h]
    simp [goneIds]
  · rw [if_neg h, sendLoop_registry]

lemma ids_nodup_filter (registry : List NotificationSubscription)
    (q : NotificationSubscription → Bool)
    (hn : (registry.map (fun s => s.id)).Nodup) :
    ((registry.filter q).map (fun s => s.id)).Nodup := by
  apply List.Nodup.sublist _ hn
  exact List.Sublist.map _ (List.filter_sublist registry)

lemma mem_goneIds_iff (notify : String → NotifyResult)
    (habitId : String) (registry : List NotificationSubscription)
    (hn : (registry.map (fun s => s.id)).Nodup)
    (s : NotificationSubscription) (hs : s ∈ registry) :
    s.id ∈ goneIds notify (registry.filter (fun t => t.habitId = some habitId))
      ↔ (s.habitId = some habitId ∧ notify s.endpoint = NotifyResult.gone) := by
  unfold goneIds
  rw [List.mem_map]
  constructor
  · rintro ⟨t, ht, htid⟩
    rw [List.mem_filter] at ht
    rcases ht with ⟨ht1, ht2⟩
    rw [List.mem_filter] at ht1
    rcases ht1 with ⟨ht1, ht3⟩
    have : t = s := List.inj_on_of_nodup_map hn ht1 hs htid
    subst this
    simp only [decide_eq_true_eq] at ht2 ht3
    exact ⟨ht3, ht2⟩
  · rintro ⟨h1, h2⟩
    refine ⟨s, ?_, rfl⟩
    rw [List.mem_filter, List.mem_filter]
    refine ⟨⟨hs, ?_⟩, ?_⟩
    · simp [h1]
    · simp [h2]

/-- Dispatching a reminder for one habit does not disturb the
subscriptions of a different habit: pruning only deletes rows whose id
belongs to a subscription of the dispatched habit. -/
lemma sendHabitReminder_preserves_other (notify : String → NotifyResult)
    (habitId habitId2 message : String)
    (registry : List NotificationSubscription)
    (hn : (registry.map (fun s => s.id)).Nodup)
    (hne : habitId2 ≠ habitId) :
    (sendHabitReminder notify habitId2 message registry).2.filter
        (fun s => s.habitId = some habitId)
      = registry.filter (fun s => s.habitId = some habitId) := by
  rw [sendHabitReminder_registry, List.filter_filter]
  apply List.filter_congr
  intro s hs
  by_cases hmatch : s.habitId = some habitId
  · have hnot : s.id ∉ goneIds notify
        (registry.filter (fun t => t.habitId = some habitId2)) := by
      rw [mem_goneIds_iff notify habitId2 registry hn s hs]
      rintro ⟨h1, _⟩
      rw [hmatch] at h1
      exact hne (Option.some.injEq _ _ ▸ h1.symm ▸ rfl)
    simp [hmatch, hnot]
  · simp [hmatch]

/-- Habits other than the one under scrutiny contribute no attempts
tagged with its id: every attempt a dispatch produces carries the
dispatched habit's id in its payload. -/
lemma remindLoop_absent (notify : String → NotifyResult) (today : Int)
    (completions : List CompletionRecord) (hid : String) :
    ∀ (hs : List Habit) (reg : List NotificationSubscription),
      (∀ h2 ∈ hs, h2.id ≠ hid) →
      (remindLoop notify today completions hs reg).1.filter
          (fun a => a.payload.habitId = hid) = [] := by
  intro hs
  induction hs with
  | nil => intro reg _; simp [remindLoop]
  | cons h2 rest ih =>
    intro reg hne
    have hne2 : h2.id ≠ hid := hne h2 (List.mem_cons_self h2 rest)
    simp only [remindLoop]
    rw [List.filter_append]
    rw [ih _ (fun x hx => hne x (List.mem_cons_of_mem h2 hx))]
    rw [List.append_nil]
    by_cases hc :
        (completions.filter (fun c => c.habitId = h2.id ∧ c.date = today)).length = 0
    · rw [if_pos hc]
      rw [List.filter_eq_nil_iff]
      intro a ha
      rw [sendHabitReminder_attempts] at ha
      rcases List.mem_map.mp ha with ⟨s, _, rfl⟩
      simpa [toAttempt] using hne2
    · rw [if_neg hc]
      simp

/-- The attempts tagged with habit `h`'s id across a reminder loop run
that contains `h` once: none when `h` has a completion dated today, one
per current subscription of `h` otherwise. -/
lemma remindLoop_found (notify : String → NotifyResult) (today : Int)
    (completions : List CompletionRecord) (h : Habit) :
    ∀ (hs : List Habit) (reg : List NotificationSubscription),
      (hs.map (fun x => x.id)).Nodup →
      (reg.map (fun s => s.id)).Nodup →
      h ∈ hs →
      (remindLoop notify today completions hs reg).1.filter
          (fun a => a.payload.habitId = h.id)
        = if (completions.filter
              (fun c => c.habitId = h.id ∧ c.date = today)).length = 0
          then (reg.filter (fun s => s.habitId = some h.id)).map
                (toAttempt h.id (reminderMessage h.name))
          else [] := by
  intro hs
  induction hs with
  | nil => intro reg _ _ hmem; exact absurd hmem (List.not_mem_nil h)
  | cons h2 rest ih =>
    intro reg hhn hrn hmem
    simp only [List.map_cons, List.nodup_cons] at hhn
    rcases hhn with ⟨hh2, hrestn⟩
    simp only [remindLoop]
    rw [List.filter_append]
    rcases List.mem_cons.mp hmem with hh | hh
    · subst hh
      have habsent : ∀ x ∈ rest, x.id ≠ h.id := by
        intro x hx hxid
        exact hh2 (hxid ▸ List.mem_map_of_mem (fun s => s.id) hx)
      by_cases hc :
          (completions.filter (fun c => c.habitId = h.id ∧ c.date = today)).length = 0
      · rw [if_pos hc, if_pos hc]
        rw [remindLoop_absent notify today completions h.id rest _ habsent]
        rw [List.append_nil]
        rw [sendHabitReminder_attempts]
        rw [List.filter_eq_self]
        intro a ha
        rcases List.mem_map.mp ha with ⟨s, _, rfl⟩
        simp [toAttempt]
      · rw [if_neg hc, if_neg hc]
        rw [remindLoop_absent notify today completions h.id rest _ habsent]
        simp
    · have hne2 : h2.id ≠ h.id := by
        intro hxid
        exact hh2 (hxid ▸ List.mem_map_of_mem (fun s => s.id) hh)
      have hstep1 : ∀ (step : List NotificationAttempt × List NotificationSubscription),
          step.1 = (sendHabitReminder notify h2.id (reminderMessage h2.name) reg).1 →
          step.1.filter (fun a => a.payload.habitId = h.id) = [] := by
        intro step hstep
        rw [hstep, List.filter_eq_nil_iff]
        intro a ha
        rw [sendHabitReminder_attempts] at ha
        rcases List.mem_map.mp ha with ⟨s, _, rfl⟩
        simpa [toAttempt] using hne2
      by_cases hc :
          (completions.filter (fun c => c.habitId = h2.id ∧ c.date = today)).length = 0
      · rw [if_pos hc]
        rw [hstep1 _ rfl]
        rw [List.nil_append]
        have hrn2 : ((sendHabitReminder notify h2.id (reminderMessage h2.name) reg).2.map
            (fun s => s.id)).Nodup := by
          rw [sendHabitReminder_registry]
          exact ids_nodup_filter reg _ hrn
        rw [ih _ hrestn hrn2 hh]
        rw [sendHabitReminder_preserves_other notify h.id h2.id
          (reminderMessage h2.name) reg hrn hne2]
      · rw [if_neg hc]
        dsimp only
        rw [List.filter_nil, List.nil_append]
        exact ih _ hrestn hrn hh

/-- The database visible to the completion service: habit rows and
completion rows. -/
structure LedgerDB where
  habits : List Habit
  completions : List CompletionRecord
deriving DecidableEq

/-- Function `createCompletion` (completion service): verify the habit belongs to
the user (`findFirst {id, userId}`), reject when a completion for
`(habitId, date)` already exists (`findUnique habitId_date`), otherwise
insert the new row.  The error strings are the service's own.  Returns
the outcome together with the database after the call. -/
def createCompletion (userId habitId : String) (date : Int)
    (duration : Option Nat) (notes : Option String) (db : LedgerDB) :
    Except String CompletionRecord × LedgerDB :=
  if (db.habits.filter (fun h2 => h2.id = habitId ∧ h2.userId = userId)).length = 0 then
    (Except.error "Habit not found or does not belong to user", db)
  else if (db.completions.filter
      (fun c => c.habitId = habitId ∧ c.date = date)).length ≠ 0 then
    (Except.error "Completion already exists for this date", db)
  else
    (Except.ok ⟨habitId, date, duration, notes⟩,
     ⟨db.habits, db.completions ++ [⟨habitId, date, duration, notes⟩]⟩)

/-- Function `getCompletions` (completion service): verify ownership, then query
the habit's completions, restricted to the optional inclusive date range
and ordered by date descending. -/
def getCompletions (userId habitId : String) (startDate endDate : Option Int)
    (db : LedgerDB) : Except String (List CompletionRecord) :=
  if (db.habits.filter (fun h2 => h2.id = habitId ∧ h2.userId = userId)).length = 0 then
    Except.error "Habit not found or does not belong to user"
  else
    Except.ok ((db.completions.filter (fun c =>
        decide (c.habitId = habitId)
        && startDate.all (fun s0 => decide (s0 ≤ c.date))
        && endDate.all (fun e0 => decide (c.date ≤ e0)))).mergeSort
      (fun a b => b.date ≤ a.date))

/-- Function `deleteSubscription` (`push-notification.service.ts`): look the
subscription up by its unique endpoint; absent gives `false`, a
different owner throws, otherwise the row is deleted and `true`
returned. -/
def deleteSubscription (userId endpoint : String)
    (registry : List NotificationSubscription) :
    Except String Bool × List NotificationSubscription :=
  match registry.find? (fun s => s.endpoint = endpoint) with
  | none => (Except.ok false, registry)
  | some s =>
    if s.userId ≠ userId then
      (Except.error "Subscription does not belong to user", registry)
    else
      (Except.ok true, registry.filter (fun t => ¬t.endpoint = endpoint))

/-- The HTTP outcome of the unsubscribe controller
(`notification.controller.ts`): 204 No Content, 404 Not Found,
403 Forbidden, or a rethrow to the error middleware. -/
inductive UnsubscribeOutcome
  | noContent
  | notFoundErr
  | forbiddenErr
  | thrown
deriving DecidableEq

/-- The `unsubscribe` controller: `deleteSubscription` returning `false`
becomes 404 Not Found, `true` becomes 204 No Content, and the
"Subscription does not belong to user" error becomes 403 Forbidden. -/
def unsubscribe (userId endpoint : String)
    (registry : List NotificationSubscription) :
    UnsubscribeOutcome × List NotificationSubscription :=
  match deleteSubscription userId endpoint registry with
  | (Except.ok true, reg2) => (UnsubscribeOutcome.noContent, reg2)
  | (Except.ok false, reg2) => (UnsubscribeOutcome.notFoundErr, reg2)
  | (Except.error msg, reg2) =>
    if msg = "Subscription does not belong to user" then
      (UnsubscribeOutcome.forbiddenErr, reg2)
    else (UnsubscribeOutcome.thrown, reg2)

lemma nodup_map_filter {α β : Type} (f : α → β) (q : α → Bool) (l : List α)
    (h : (l.map f).Nodup) : ((l.filter q).map f).Nodup :=
  List.Nodup.sublist (List.Sublist.map f (List.filter_sublist l)) h

/-- The longest run inside a single gap-free interval is its length. -/
lemma specLongestStreak_Icc (a b : Int) (hab : a ≤ b) :
    specLongestStreak (Finset.Icc a b) = (b - a + 1).toNat := by
  have h := specLongestStreak_union_gap a b hab ∅ (by intro x hx; simp at hx)
  rw [Finset.union_empty] at h
  rw [h]
  simp [specLongestStreak]

/-- C1: the current-streak computation walks backward day-by-day from
`today`: a completed day counts 1 and moves to the previous day, a
skipped day stops without counting, a day with neither stops; and an
empty completion list yields 0.  Stated as: `calculateStreak` equals the
maximal backward walk `specCurrentStreak`, which satisfies exactly that
one-step recurrence. -/
theorem currentStreak_backward_walk (completions : List HabitCompletion)
    (skips : List HabitSkip) (today : Int) :
    calculateStreak completions skips today
      = specCurrentStreak (completionDates completions) (skipDates skips) today
    ∧ (∀ (comp sk : Finset Int) (d : Int),
        specCurrentStreak comp sk d
          = if d ∈ sk then 0
            else if d ∈ comp then specCurrentStreak comp sk (d - 1) + 1
            else 0)
    ∧ (∀ (sk : List HabitSkip) (t : Int), calculateStreak [] sk t = 0) := by
  refine ⟨calculateStreak_eq_spec completions skips today,
    specCurrentStreak_rec, ?_⟩
  intro sk t
  simp [calculateStreak]

/-- C2: the longest-streak computation equals the length of the longest
run of calendar-consecutive distinct completion dates; completions on
days 1–5 and 10–12 give 5, and a single completion gives 1. -/
theorem longestStreak_runs (completions : List HabitCompletion)
    (skips : List HabitSkip) :
    calculateLongestStreak completions skips
      = specLongestStreak (completionDates completions)
    ∧ (∀ (c : HabitCompletion) (sk : List HabitSkip),
        calculateLongestStreak [c] sk = 1)
    ∧ calculateLongestStreak
        [⟨1, none⟩, ⟨2, none⟩, ⟨3, none⟩, ⟨4, none⟩, ⟨5, none⟩,
         ⟨10, none⟩, ⟨11, none⟩, ⟨12, none⟩] [] = 5 := by
  refine ⟨calculateLongestStreak_eq_spec completions skips, ?_, ?_⟩
  · intro c sk
    rw [calculateLongestStreak_eq_spec]
    have h1 : completionDates [c] = Finset.Icc c.date c.date := by
      ext x
      simp [completionDates, Finset.mem_Icc]
    rw [h1, specLongestStreak_Icc c.date c.date le_rfl]
    simp
  · rw [calculateLongestStreak_eq_spec]
    have h1 : completionDates
        [⟨1, none⟩, ⟨2, none⟩, ⟨3, none⟩, ⟨4, none⟩, ⟨5, none⟩,
         ⟨10, none⟩, ⟨11, none⟩, ⟨12, none⟩]
        = Finset.Icc (1 : Int) 5 ∪ Finset.Icc 10 12 := by
      ext x
      simp [completionDates, Finset.mem_Icc]
      omega
    have hgap : ∀ x ∈ Finset.Icc (10 : Int) 12, (5 : Int) + 1 < x := by
      intro x hx
      rw [Finset.mem_Icc] at hx
      omega
    rw [h1, specLongestStreak_union_gap 1 5 (by norm_num) _ hgap,
      specLongestStreak_Icc 10 12 (by norm_num)]
    decide

/-- C3: the completion rate is completions over total attempts times
100, rounded to 2 decimal places, and 0 when there are no attempts —
the guarded branch makes the zero-denominator case total. -/
theorem completionRate_guarded (completions : List HabitCompletion)
    (skips : List HabitSkip) (today : Int) :
    (getHabitStatistics completions skips today).completionRate
      = specCompletionRate completions.length skips.length := by
  simp only [getHabitStatistics, specCompletionRate]
  by_cases h : completions.length + skips.length = 0
  · rw [if_pos h, if_neg (by omega)]
    simp [round2]
  · rw [if_neg h, if_pos (by omega)]
    congr 2
    push_cast
    ring

/-- C9: the longest-streak computation is invariant under the skip
argument — the skip set the source builds is dead code, never consulted
by the loop. -/
theorem longestStreak_skip_invariant (completions : List HabitCompletion)
    (skips1 skips2 : List HabitSkip) :
    calculateLongestStreak completions skips1
      = calculateLongestStreak completions skips2 := rfl

/-- C10: a date carrying both a completion and a skip is treated as a
skip: since the skip check precedes the completion check, the walk stops
there without counting that day's completion — with `k` doubly-recorded
days back and all nearer days completed and unskipped, the streak is
exactly `k`. -/
theorem skip_precedes_completion (completions : List HabitCompletion)
    (skips : List HabitSkip) (today : Int) (k : Nat)
    (_hcomp : (today - (k : Int)) ∈ completionDates completions)
    (hskip : (today - (k : Int)) ∈ skipDates skips)
    (hbefore : ∀ j : Nat, j < k →
      (today - (j : Int)) ∈ completionDates completions
        ∧ (today - (j : Int)) ∉ skipDates skips) :
    calculateStreak completions skips today = k := by
  rw [calculateStreak_eq_spec, specCurrentStreak, Nat.find_eq_iff]
  exact ⟨fun hc => hc.2 hskip, fun m hm => not_not.mpr (hbefore m hm)⟩

/-- C10 witness: completions on days 5 and 4, a skip also on day 4,
today = 5: the walk counts day 5 and stops at the doubly-recorded day 4
without counting it, giving streak 1. -/
theorem skip_precedes_completion_witness :
    calculateStreak [⟨5, none⟩, ⟨4, none⟩] [⟨4⟩] 5 = 1 :=
  skip_precedes_completion [⟨5, none⟩, ⟨4, none⟩] [⟨4⟩] 5 1
    (by decide) (by decide) (by decide)

/-- C4 counterexample: a subscription with a null habit reference owned
by the habit's owner is a dispatch target according to the spec, yet the
dispatch for that habit attempts no notification at all — the query
matches on the habit id only. -/
theorem dispatch_null_habit_counterexample :
    specDispatchTargets "h1" "u1"
        [⟨1, "u1", none, "ep1", ⟨"p", "a"⟩⟩]
      = [⟨1, "u1", none, "ep1", ⟨"p", "a"⟩⟩]
    ∧ (sendHabitReminder (fun _ => NotifyResult.ok) "h1" "hello"
        [⟨1, "u1", none, "ep1", ⟨"p", "a"⟩⟩]).1 = [] := by
  constructor <;> rfl

/-- C4 (amended): dispatching a reminder invokes the notify collaborator
exactly once per subscription whose habit reference is this habit, with
payload {title: "Habit Reminder", body: message, habitId}; subscriptions
with a null habit reference are not resolved, even when their owner
matches the habit's owner. -/
theorem dispatch_targets_habit_only (notify : String → NotifyResult)
    (habitId message : String) (registry : List NotificationSubscription) :
    (sendHabitReminder notify habitId message registry).1
      = (registry.filter (fun s => s.habitId = some habitId)).map
          (toAttempt habitId message) :=
  sendHabitReminder_attempts notify habitId message registry

/-- C5: every resolved subscription is attempted regardless of earlier
outcomes, a 410-Gone subscription is deleted from the registry, and any
other failure leaves the subscription in place — one failing endpoint
never aborts the batch. -/
theorem dispatch_partial_failure (notify : String → NotifyResult)
    (habitId message : String) (registry : List NotificationSubscription)
    (hids : (registry.map (fun s => s.id)).Nodup) :
    (sendHabitReminder notify habitId message registry).1
      = (registry.filter (fun s => s.habitId = some habitId)).map
          (toAttempt habitId message)
    ∧ (sendHabitReminder notify habitId message registry).2
      = registry.filter (fun s =>
          ¬(s.habitId = some habitId ∧ notify s.endpoint = NotifyResult.gone)) := by
  refine ⟨sendHabitReminder_attempts notify habitId message registry, ?_⟩
  rw [sendHabitReminder_registry]
  apply List.filter_congr
  intro s hs
  rw [decide_eq_decide]
  exact not_congr (mem_goneIds_iff notify habitId registry hids s hs)

/-- C5 witness: two subscriptions for habit h1, the notify call for ep1
reports gone and the one for ep2 succeeds — both are attempted, the
expired one is pruned, the healthy one remains. -/
theorem dispatch_partial_failure_witness :
    (sendHabitReminder
        (fun e => if e = "ep1" then NotifyResult.gone else NotifyResult.ok)
        "h1" "m"
        [⟨1, "u1", some "h1", "ep1", ⟨"p", "a"⟩⟩,
         ⟨2, "u1", some "h1", "ep2", ⟨"q", "b"⟩⟩]).1
      = [⟨"ep1", ⟨"p", "a"⟩, ⟨"Habit Reminder", "m", "h1"⟩⟩,
         ⟨"ep2", ⟨"q", "b"⟩, ⟨"Habit Reminder", "m", "h1"⟩⟩]
    ∧ (sendHabitReminder
        (fun e => if e = "ep1" then NotifyResult.gone else NotifyResult.ok)
        "h1" "m"
        [⟨1, "u1", some "h1", "ep1", ⟨"p", "a"⟩⟩,
         ⟨2, "u1", some "h1", "ep2", ⟨"q", "b"⟩⟩]).2
      = [⟨2, "u1", some "h1", "ep2", ⟨"q", "b"⟩⟩] := by
  have h := dispatch_partial_failure
    (fun e => if e = "ep1" then NotifyResult.gone else NotifyResult.ok)
    "h1" "m"
    [⟨1, "u1", some "h1", "ep1", ⟨"p", "a"⟩⟩,
     ⟨2, "u1", some "h1", "ep2", ⟨"q", "b"⟩⟩]
    (by decide)
  refine ⟨?_, ?_⟩
  · rw [h.1]
    rfl
  · rw [h.2]
    rfl

/-- C6: for a habit whose reminder time equals the current minute, the
reminder check produces no notify attempt for it when a completion
dated today exists, and one attempt per subscription of the habit when
none exists (a habit with no subscriptions is skipped by the query, and
equally produces zero attempts). -/
theorem reminder_match_and_suppression (notify : String → NotifyResult)
    (currentTime : String) (today : Int) (habits : List Habit)
    (completions : List CompletionRecord)
    (registry : List NotificationSubscription) (h : Habit)
    (hmem : h ∈ habits) (hrt : h.reminderTime = some currentTime)
    (hhn : (habits.map (fun x => x.id)).Nodup)
    (hrn : (registry.map (fun s => s.id)).Nodup) :
    (checkAndSendReminders notify currentTime today habits completions
        registry).1.filter (fun a => a.payload.habitId = h.id)
      = if (completions.filter
            (fun c => c.habitId = h.id ∧ c.date = today)).length = 0
        then (registry.filter (fun s => s.habitId = some h.id)).map
              (toAttempt h.id (reminderMessage h.name))
        else [] := by
  unfold checkAndSendReminders
  by_cases hsub : registry.any (fun s => s.habitId = some h.id) = true
  · have hdue : h ∈ habits.filter
        (fun h2 => h2.reminderTime = some currentTime ∧
          registry.any (fun s => s.habitId = some h2.id)) := by
      rw [List.mem_filter]
      refine ⟨hmem, ?_⟩
      simp [hrt, hsub]
    exact remindLoop_found notify today completions h _ registry
      (nodup_map_filter _ _ habits hhn) hrn hdue
  · have hreg : registry.filter (fun s => s.habitId = some h.id) = [] := by
      rw [List.filter_eq_nil_iff]
      intro s hs hcontra
      apply hsub
      rw [List.any_eq_true]
      exact ⟨s, hs, hcontra⟩
    have habs : ∀ h2 ∈ habits.filter
        (fun h3 => h3.reminderTime = some currentTime ∧
          registry.any (fun s => s.habitId = some h3.id)), h2.id ≠ h.id := by
      intro h2 hh2 hid
      rw [List.mem_filter] at hh2
      rcases hh2 with ⟨hh2m, hh2p⟩
      have : h2 = h := List.inj_on_of_nodup_map hhn hh2m hmem hid
      subst this
      simp only [decide_eq_true_eq] at hh2p
      exact hsub (by simp [hh2p.2])
    rw [remindLoop_absent notify today completions h.id _ registry habs, hreg]
    simp

/-- C6 witness: habit h1 with reminder time 07:00, current time 07:00,
one subscription, and a completion already recorded for today — the
check produces no notify attempt for h1. -/
theorem reminder_suppression_witness :
    (checkAndSendReminders (fun _ => NotifyResult.ok) "07:00" 19000
        [⟨"h1", "u1", "Run", some "07:00"⟩]
        [⟨"h1", 19000, none, none⟩]
        [⟨1, "u1", some "h1", "ep1", ⟨"p", "a"⟩⟩]).1.filter
      (fun a => a.payload.habitId = (⟨"h1", "u1", "Run", some "07:00"⟩ : Habit).id)
      = [] := by
  have h := reminder_match_and_suppression (fun _ => NotifyResult.ok) "07:00" 19000
    [⟨"h1", "u1", "Run", some "07:00"⟩]
    [⟨"h1", 19000, none, none⟩]
    [⟨1, "u1", some "h1", "ep1", ⟨"p", "a"⟩⟩]
    ⟨"h1", "u1", "Run", some "07:00"⟩
    (by decide) rfl (by decide) (by decide)
  rw [h]
  rfl

/-- C7: creating a completion on a free date succeeds, a query then
contains exactly that record once, and a second create for the same
(habit, date) fails with the AlreadyExists/Conflict error and leaves the
ledger unchanged. -/
theorem completion_roundtrip (userId habitId : String) (date : Int)
    (duration : Option Nat) (notes : Option String) (db : LedgerDB)
    (habit : Habit)
    (hhab : habit ∈ db.habits) (hid : habit.id = habitId)
    (huser : habit.userId = userId)
    (hfresh : db.completions.filter
      (fun c => c.habitId = habitId ∧ c.date = date) = []) :
    (createCompletion userId habitId date duration notes db).1
      = Except.ok ⟨habitId, date, duration, notes⟩
    ∧ (∃ l, getCompletions userId habitId none none
          (createCompletion userId habitId date duration notes db).2
          = Except.ok l
        ∧ l.countP (fun c => c.habitId = habitId ∧ c.date = date) = 1
        ∧ (⟨habitId, date, duration, notes⟩ : CompletionRecord) ∈ l)
    ∧ (createCompletion userId habitId date duration notes
          (createCompletion userId habitId date duration notes db).2).1
      = Except.error "Completion already exists for this date"
    ∧ (createCompletion userId habitId date duration notes
          (createCompletion userId habitId date duration notes db).2).2
      = (createCompletion userId habitId date duration notes db).2 := by
  have hown : ¬(db.habits.filter
      (fun h2 => h2.id = habitId ∧ h2.userId = userId)).length = 0 := by
    have hm : habit ∈ db.habits.filter
        (fun h2 => h2.id = habitId ∧ h2.userId = userId) :=
      List.mem_filter.mpr ⟨hhab, by simp [hid, huser]⟩
    intro hlen
    rw [List.length_eq_zero] at hlen
    rw [hlen] at hm
    exact absurd hm (List.not_mem_nil habit)
  have hfreshmem : ∀ c ∈ db.completions, ¬(c.habitId = habitId ∧ c.date = date) := by
    intro c hc
    have := List.filter_eq_nil_iff.mp hfresh c hc
    simpa using this
  have hdup : ¬(db.completions.filter
      (fun c => c.habitId = habitId ∧ c.date = date)).length ≠ 0 := by
    rw [hfresh]
    simp
  have hstep : createCompletion userId habitId date duration notes db
      = (Except.ok ⟨habitId, date, duration, notes⟩,
         ⟨db.habits, db.completions ++ [⟨habitId, date, duration, notes⟩]⟩) := by
    unfold createCompletion
    rw [if_neg hown, if_neg hdup]
  refine ⟨by rw [hstep], ?_, ?_, ?_⟩
  · rw [hstep]
    unfold getCompletions
    dsimp only
    rw [if_neg hown]
    refine ⟨_, rfl, ?_, ?_⟩
    · rw [List.Perm.countP_eq _ (List.mergeSort_perm _ _)]
      rw [List.countP_eq_length_filter, List.filter_filter, List.filter_append]
      have hleft : db.completions.filter (fun a =>
          decide (a.habitId = habitId ∧ a.date = date)
          && (decide (a.habitId = habitId)
            && Option.all (fun s0 => decide (s0 ≤ a.date)) none
            && Option.all (fun e0 => decide (a.date ≤ e0)) none)) = [] := by
        rw [List.filter_eq_nil_iff]
        intro c hc
        simp only [Bool.and_eq_true, decide_eq_true_eq]
        rintro ⟨hcd, _⟩
        exact hfreshmem c hc hcd
      rw [hleft]
      simp
    · rw [List.Perm.mem_iff (List.mergeSort_perm _ _)]
      rw [List.mem_filter]
      refine ⟨List.mem_append_right _ (List.mem_singleton_self _), by simp⟩
  · rw [hstep]
    unfold createCompletion
    dsimp only
    rw [if_neg hown]
    rw [if_pos ?hpos]
    case hpos =>
      rw [List.filter_append, hfresh, List.nil_append]
      simp
  · rw [hstep]
    unfold createCompletion
    dsimp only
    rw [if_neg hown]
    rw [if_pos ?hpos2]
    case hpos2 =>
      rw [List.filter_append, hfresh, List.nil_append]
      simp

/-- C7 witness: a fresh habit h1 of user u1 with an empty ledger — the
round trip at date 100 behaves as stated. -/
theorem completion_roundtrip_witness :
    (createCompletion "u1" "h1" 100 none none
        ⟨[⟨"h1", "u1", "Run", none⟩], []⟩).1
      = Except.ok ⟨"h1", 100, none, none⟩
    ∧ (∃ l, getCompletions "u1" "h1" none none
          (createCompletion "u1" "h1" 100 none none
            ⟨[⟨"h1", "u1", "Run", none⟩], []⟩).2
          = Except.ok l
        ∧ l.countP (fun c => c.habitId = "h1" ∧ c.date = 100) = 1
        ∧ (⟨"h1", 100, none, none⟩ : CompletionRecord) ∈ l)
    ∧ (createCompletion "u1" "h1" 100 none none
          (createCompletion "u1" "h1" 100 none none
            ⟨[⟨"h1", "u1", "Run", none⟩], []⟩).2).1
      = Except.error "Completion already exists for this date"
    ∧ (createCompletion "u1" "h1" 100 none none
          (createCompletion "u1" "h1" 100 none none
            ⟨[⟨"h1", "u1", "Run", none⟩], []⟩).2).2
      = (createCompletion "u1" "h1" 100 none none
          ⟨[⟨"h1", "u1", "Run", none⟩], []⟩).2 :=
  completion_roundtrip "u1" "h1" 100 none none
    ⟨[⟨"h1", "u1", "Run", none⟩], []⟩ ⟨"h1", "u1", "Run", none⟩
    (List.mem_cons_self _ _) rfl rfl rfl

/-- C8 counterexample: unsubscribing an endpoint that is not registered
at all yields the 404 Not Found error response, not a vacuous
success. -/
theorem unsubscribe_not_found_counterexample :
    (unsubscribe "u1" "ep1" []).1 = UnsubscribeOutcome.notFoundErr
    ∧ (unsubscribe "u1" "ep1" []).1 ≠ UnsubscribeOutcome.noContent := by
  constructor <;> decide

/-- C8 (amended): unsubscribe fails with Forbidden (403) when the
endpoint is registered to a different owner, removes the subscription
when registered to this owner, and fails with Not Found (404) — not a
vacuous success — when the endpoint is not registered; the registry is
unchanged in the Forbidden and not-found cases. -/
theorem unsubscribe_ownership (userId endpoint : String)
    (registry : List NotificationSubscription) :
    (∀ s, registry.find? (fun t => t.endpoint = endpoint) = some s →
        s.userId ≠ userId →
        unsubscribe userId endpoint registry
          = (UnsubscribeOutcome.forbiddenErr, registry))
    ∧ (∀ s, registry.find? (fun t => t.endpoint = endpoint) = some s →
        s.userId = userId →
        unsubscribe userId endpoint registry
          = (UnsubscribeOutcome.noContent,
             registry.filter (fun t => ¬t.endpoint = endpoint)))
    ∧ (registry.find? (fun t => t.endpoint = endpoint) = none →
        unsubscribe userId endpoint registry
          = (UnsubscribeOutcome.notFoundErr, registry)) := by
  refine ⟨?_, ?_, ?_⟩
  · intro s hfind hne
    unfold unsubscribe deleteSubscription
    rw [hfind]
    simp [hne]
  · intro s hfind heq
    unfold unsubscribe deleteSubscription
    rw [hfind]
    simp [heq]
  · intro hfind
    unfold unsubscribe deleteSubscription
    rw [hfind]

/-- C8 witness: endpoint ep1 is registered to u2; u1's unsubscribe is
rejected with Forbidden and the registry is untouched. -/
theorem unsubscribe_ownership_witness :
    unsubscribe "u1" "ep1" [⟨1, "u2", none, "ep1", ⟨"p", "a"⟩⟩]
      = (UnsubscribeOutcome.forbiddenErr,
         [⟨1, "u2", none, "ep1", ⟨"p", "a"⟩⟩]) :=
  (unsubscribe_ownership "u1" "ep1"
      [⟨1, "u2", none, "ep1", ⟨"p", "a"⟩⟩]).1
    ⟨1, "u2", none, "ep1", ⟨"p", "a"⟩⟩ (by decide) (by decide)

end HabitsApp
